import Mathlib

/-
Verification of the training/evaluation orchestration loop of
`train.py` (TACRED BERT fine-tuning).

The shallow embedding below follows the source line by line:

* `grad_acc_steps` embeds line 81: `grad_acc_steps = 64 // args.batch_size`.
* `trainEpochAux` embeds the TRAIN loop (lines 148-184), including the
  shadowing of the `enumerate` index `i` by the device-placement loop
  (lines 152-154), which leaves `i = len(batch) - 1 = 4` before the
  accumulation condition `(i + 1) % grad_acc_steps == 0` (line 177).
  Python raises `ZeroDivisionError` when `grad_acc_steps` is 0, which the
  embedding models with `Except`; the error carries the state at the
  moment of the abort.
* `evalPassStAux` embeds the EVAL loop (lines 189-215), threading the
  model state explicitly to make visible that the loop never mutates it.
* `ckptStep` embeds the per-epoch checkpoint block (lines 232-245):
  save, best-model comparison against `max(list_dev_f1)` over the prior
  epochs, retention pruning by `epoch % save_epoch`, and the append of
  the epoch's dev F1 to `list_dev_f1`.

Losses and dev F1 values are modelled as rationals.
-/

/-- Line 81: `grad_acc_steps = 64 // args.batch_size` (Python floor
division on nonnegative ints is `Nat.div`). -/
def grad_acc_steps (batch_size : Nat) : Nat := 64 / batch_size

/-- A train/eval batch is the 5-tuple
`(labels, input_ids, att_mask, e1_pos, e2_pos)` (line 155), so
`len(batch) = 5`. -/
def batchNumFields : Nat := 5

/-- Final value of the loop variable `i` after the device-placement loop
`for i in range(len(batch))` (lines 152-154): the last index iterated,
or the unchanged `enumerate` index when the batch tuple were empty. -/
def deviceLoopFinalI (enumI n : Nat) : Nat := if n = 0 then enumI else n - 1

/-- Counters mutated by one TRAIN epoch (lines 148-184). `trainLoss` is
the running sum `train_loss += loss` (line 183). -/
structure TrainState where
  globalStep : Nat
  optSteps : Nat
  schedSteps : Nat
  zeroGradCalls : Nat
  trainLoss : ℚ
deriving DecidableEq, Repr

/-- State at the top of an epoch: `train_loss = 0` (line 146) and all
counters zero at the start of the run. -/
def initTrainState : TrainState := ⟨0, 0, 0, 0, 0⟩

/-- One TRAIN epoch, lines 148-184. The batch list is abstracted to the
per-batch scalar loss values (the model and criterion are external
collaborators). `enumI` is the `enumerate` index, immediately shadowed
by the device-placement loop; `hasSched` models `scheduler is not None`
(line 179). The accumulation condition `(i + 1) % grad_acc_steps == 0`
(line 177) raises `ZeroDivisionError` in Python when `grad_acc_steps = 0`,
modelled as an `Except.error` carrying the state at the abort, before any
update of the loss sum or the step counters for that batch. -/
def trainEpochAux (A : Nat) (hasSched : Bool) :
    List ℚ → Nat → TrainState → Except (String × TrainState) TrainState
  | [], _, s => .ok s
  | loss :: rest, enumI, s =>
    let i := deviceLoopFinalI enumI batchNumFields
    if A = 0 then
      .error ("ZeroDivisionError: integer division or modulo by zero", s)
    else
      let doStep := (i + 1) % A == 0
      let inc := if doStep then 1 else 0
      trainEpochAux A hasSched rest (enumI + 1)
        { globalStep := s.globalStep + 1
          optSteps := s.optSteps + inc
          schedSteps := s.schedSteps + (if doStep && hasSched then 1 else 0)
          zeroGradCalls := s.zeroGradCalls + inc
          trainLoss := s.trainLoss + loss }

/-- A full TRAIN epoch starting from the per-epoch initial state. -/
def trainEpoch (A : Nat) (hasSched : Bool) (losses : List ℚ) :
    Except (String × TrainState) TrainState :=
  trainEpochAux A hasSched losses 0 initTrainState

/-- Lines 223-224: `loss_sum / len(dataset) * batch_size`. -/
def normalizedLoss (total : ℚ) (numExamples batch_size : Nat) : ℚ :=
  total / (numExamples : ℚ) * (batch_size : ℚ)

/-- Closed form of a TRAIN epoch when `grad_acc_steps ≠ 0`: the shadowed
index makes the condition `(4 + 1) % A == 0` identical for every batch,
so each counter advances uniformly and the loss sum is the list sum. -/
theorem trainEpochAux_ok (A : Nat) (hA : A ≠ 0) (hasSched : Bool) :
    ∀ (losses : List ℚ) (enumI : Nat) (s : TrainState),
    trainEpochAux A hasSched losses enumI s = .ok
      { globalStep := s.globalStep + losses.length
        optSteps := s.optSteps + (if 5 % A = 0 then losses.length else 0)
        schedSteps := s.schedSteps +
          (if 5 % A = 0 ∧ hasSched then losses.length else 0)
        zeroGradCalls := s.zeroGradCalls + (if 5 % A = 0 then losses.length else 0)
        trainLoss := s.trainLoss + losses.sum } := by
  intro losses
  induction losses with
  | nil =>
    intro enumI s
    simp [trainEpochAux]
  | cons loss rest ih =>
    intro enumI s
    have h4 : deviceLoopFinalI enumI batchNumFields = 4 := by
      simp [deviceLoopFinalI, batchNumFields]
    have hstep : trainEpochAux A hasSched (loss :: rest) enumI s =
        trainEpochAux A hasSched rest (enumI + 1)
          { globalStep := s.globalStep + 1
            optSteps := s.optSteps + (if 5 % A = 0 then 1 else 0)
            schedSteps := s.schedSteps + (if 5 % A = 0 ∧ hasSched then 1 else 0)
            zeroGradCalls := s.zeroGradCalls + (if 5 % A = 0 then 1 else 0)
            trainLoss := s.trainLoss + loss } := by
      simp only [trainEpochAux, h4, if_neg hA]
      by_cases h5 : 5 % A = 0 <;> cases hasSched <;> simp [h5]
    rw [hstep, ih]
    simp only [Except.ok.injEq, TrainState.mk.injEq, List.length_cons, List.sum_cons]
    refine ⟨by omega, ?_, ?_, ?_, by ring⟩ <;>
      by_cases h5 : 5 % A = 0 <;> cases hasSched <;> simp [h5] <;> omega

/-- For a nonzero accumulation factor `A`, the condition `5 % A = 0`
holds exactly when `A` is 1 or 5. -/
theorem five_mod_eq_zero_iff (A : Nat) (hA : A ≠ 0) :
    5 % A = 0 ↔ A = 1 ∨ A = 5 := by
  constructor
  · intro h
    have hdvd : A ∣ 5 := Nat.dvd_of_mod_eq_zero h
    have hle : A ≤ 5 := Nat.le_of_dvd (by norm_num) hdvd
    interval_cases A <;> omega
  · rintro (rfl | rfl) <;> rfl

/-- Claim C2: in every TRAIN epoch the device-placement loop reassigns
the loop variable `i`, so after moving a 5-field batch to the device
`i = 4` for every batch; the accumulation condition therefore evaluates
`(4 + 1) % grad_acc_steps == 0` identically for all batches: an
optimizer step (with scheduler step when a scheduler exists, and
gradient zeroing) is applied after every single batch when
`grad_acc_steps` divides 5 (i.e. it is 1 or 5), and never inside the
epoch otherwise. -/
theorem train_step_cadence_shadowed_index (A : Nat) (hA : A ≠ 0)
    (hasSched : Bool) (losses : List ℚ) :
    (∀ enumI, deviceLoopFinalI enumI batchNumFields = 4) ∧
    (5 % A = 0 ↔ A = 1 ∨ A = 5) ∧
    (trainEpoch A hasSched losses).map TrainState.optSteps =
      .ok (if 5 % A = 0 then losses.length else 0) ∧
    (trainEpoch A hasSched losses).map TrainState.zeroGradCalls =
      .ok (if 5 % A = 0 then losses.length else 0) ∧
    (trainEpoch A hasSched losses).map TrainState.schedSteps =
      .ok (if 5 % A = 0 ∧ hasSched then losses.length else 0) := by
  refine ⟨fun enumI => by simp [deviceLoopFinalI, batchNumFields],
    five_mod_eq_zero_iff A hA, ?_, ?_, ?_⟩ <;>
  · rw [trainEpoch, trainEpochAux_ok A hA]
    simp [initTrainState, Except.map]

/-- Witness for claim C2 at `A = 2` with a three-batch epoch. -/
theorem train_step_cadence_shadowed_index_witness :
    (∀ enumI, deviceLoopFinalI enumI batchNumFields = 4) ∧
    (5 % 2 = 0 ↔ 2 = 1 ∨ 2 = 5) ∧
    (trainEpoch 2 true [1, 2, 3]).map TrainState.optSteps =
      .ok (if 5 % 2 = 0 then [(1 : ℚ), 2, 3].length else 0) ∧
    (trainEpoch 2 true [1, 2, 3]).map TrainState.zeroGradCalls =
      .ok (if 5 % 2 = 0 then [(1 : ℚ), 2, 3].length else 0) ∧
    (trainEpoch 2 true [1, 2, 3]).map TrainState.schedSteps =
      .ok (if 5 % 2 = 0 ∧ true then [(1 : ℚ), 2, 3].length else 0) :=
  train_step_cadence_shadowed_index 2 (by norm_num) true [1, 2, 3]

/-- Claim C1 (failing input): with `batch_size = 32` the code computes
`grad_acc_steps = 2`, yet an epoch of 4 train batches performs 0
optimizer steps, not `floor(4 / 2) = 2` as the spec guarantees, because
the shadowed index makes the accumulation condition `5 % 2 == 0`, which
is false. -/
theorem optimizer_steps_failing_input :
    grad_acc_steps 32 = 2 ∧
    (trainEpoch (grad_acc_steps 32) true [1, 2, 3, 4]).map TrainState.optSteps =
      .ok 0 ∧
    [(1 : ℚ), 2, 3, 4].length / grad_acc_steps 32 = 2 := by
  refine ⟨rfl, ?_, rfl⟩
  have h := trainEpochAux_ok 2 (by norm_num) true [1, 2, 3, 4] 0 initTrainState
  rw [show grad_acc_steps 32 = 2 from rfl, trainEpoch, h]
  simp [initTrainState, Except.map]

/-- Claim C10: for a configured batch size strictly greater than 64,
`grad_acc_steps = 64 // batch_size = 0`, and the first training batch
aborts with an unguarded `ZeroDivisionError` when the accumulation
condition `(i + 1) % grad_acc_steps` is evaluated, before any optimizer
step (the state carried by the error still has `optSteps = 0`). -/
theorem batch_size_over_64_division_by_zero (bs : Nat) (hbs : 64 < bs)
    (hasSched : Bool) (l : ℚ) (rest : List ℚ) :
    grad_acc_steps bs = 0 ∧
    trainEpoch (grad_acc_steps bs) hasSched (l :: rest) =
      .error ("ZeroDivisionError: integer division or modulo by zero",
        initTrainState) ∧
    initTrainState.optSteps = 0 := by
  have h0 : grad_acc_steps bs = 0 := Nat.div_eq_of_lt hbs
  refine ⟨h0, ?_, rfl⟩
  rw [h0, trainEpoch]
  simp [trainEpochAux]

/-- Witness for claim C10 at `batch_size = 128` with one batch. -/
theorem batch_size_over_64_division_by_zero_witness :
    grad_acc_steps 128 = 0 ∧
    trainEpoch (grad_acc_steps 128) true [1] =
      .error ("ZeroDivisionError: integer division or modulo by zero",
        initTrainState) ∧
    initTrainState.optSteps = 0 :=
  batch_size_over_64_division_by_zero 128 (by norm_num) true 1 []

/-- `torch.argmax` over one row of logits (line 211): index of the
maximum entry, first occurrence on ties. `bestVal` is the running
maximum, `bestIdx` its (0-based) index, `curIdx` the index of the head
of the remaining row. -/
def argmaxIdxAux : List ℚ → ℚ → Nat → Nat → Nat
  | [], _, _, bestIdx => bestIdx
  | x :: xs, bestVal, curIdx, bestIdx =>
    if bestVal < x then argmaxIdxAux xs x (curIdx + 1) curIdx
    else argmaxIdxAux xs bestVal (curIdx + 1) bestIdx

/-- Index of the maximum logit of one example's row. -/
def argmaxIdx : List ℚ → Nat
  | [] => 0
  | x :: xs => argmaxIdxAux xs x 1 0

/-- One batch produced by the dev loader: aligned labels and examples
(line 200 unpacks `labels, input_ids, att_mask, e1_pos, e2_pos`; the
example inputs are abstracted into `Ex`). -/
structure EvalBatch (Ex : Type) where
  labels : List Nat
  exs : List Ex

/-- The EVAL loop body over the remaining batches (lines 193-214).
`fwd m ex` is the model forward pass producing the logits row of one
example given model state `m`; `crit` is `criterion(logits, labels)`.
The model state is threaded unchanged: under `torch.no_grad()` the loop
performs no backward pass and no optimizer or scheduler step, so no
statement in it mutates the model. `preds` accumulates
`torch.argmax(logits, dim=1).tolist()` appended batch by batch
(line 213); `dloss` accumulates `dev_loss += loss` (line 214). -/
def evalPassStAux {M Ex : Type} (fwd : M → Ex → List ℚ)
    (crit : List (List ℚ) → List Nat → ℚ) :
    M → List (EvalBatch Ex) → List Nat → ℚ → (List Nat × ℚ) × M
  | m, [], preds, dloss => ((preds, dloss), m)
  | m, b :: rest, preds, dloss =>
    let logits := b.exs.map (fwd m)
    let loss := crit logits b.labels
    evalPassStAux fwd crit m rest (preds ++ logits.map argmaxIdx) (dloss + loss)

/-- One full EVAL pass (lines 189-215): run the loop from empty
accumulators, then map the raw predictions through the id→label lookup
(line 215: `predictions = [id2label[p] for p in predictions]`). Returns
((predictions, dev loss), model state after the pass). -/
def evalEpoch {M Ex L : Type} (fwd : M → Ex → List ℚ)
    (crit : List (List ℚ) → List Nat → ℚ) (id2label : Nat → L)
    (m : M) (batches : List (EvalBatch Ex)) : (List L × ℚ) × M :=
  let r := evalPassStAux fwd crit m batches [] 0
  ((r.1.1.map id2label, r.1.2), r.2)

/-- The EVAL loop's accumulators in closed form: the predictions are the
previous ones followed by the argmax of every example's row in batch
order, and the loss is the previous one plus the per-batch criterion
values. The model state comes back unchanged. -/
theorem evalPassStAux_eq {M Ex : Type} (fwd : M → Ex → List ℚ)
    (crit : List (List ℚ) → List Nat → ℚ) :
    ∀ (batches : List (EvalBatch Ex)) (m : M) (preds : List Nat) (dloss : ℚ),
    evalPassStAux fwd crit m batches preds dloss =
      ((preds ++ ((batches.map EvalBatch.exs).flatten.map
          (fun e => argmaxIdx (fwd m e))),
        dloss + (batches.map (fun b => crit (b.exs.map (fwd m)) b.labels)).sum),
       m) := by
  intro batches
  induction batches with
  | nil =>
    intro m preds dloss
    simp [evalPassStAux]
  | cons b rest ih =>
    intro m preds dloss
    rw [evalPassStAux, ih]
    simp [List.map_map, Function.comp, add_assoc]

/-- Claim C6: for every EVAL pass over the dev set, the returned
predictions list has length equal to the dev dataset's example count,
each element is the argmax over the logits of the corresponding example
mapped through the id→label lookup, and the list order matches the order
in which the batch iterator produced the examples (the gold-label
order). The hypothesis says the dev loader's batches enumerate exactly
the dev dataset, in order. -/
theorem eval_predictions_order {M Ex L : Type} (fwd : M → Ex → List ℚ)
    (crit : List (List ℚ) → List Nat → ℚ) (id2label : Nat → L)
    (m : M) (batches : List (EvalBatch Ex)) (dev : List Ex)
    (h : (batches.map EvalBatch.exs).flatten = dev) :
    (evalEpoch fwd crit id2label m batches).1.1 =
      dev.map (fun e => id2label (argmaxIdx (fwd m e))) ∧
    (evalEpoch fwd crit id2label m batches).1.1.length = dev.length := by
  have hmain : (evalEpoch fwd crit id2label m batches).1.1 =
      dev.map (fun e => id2label (argmaxIdx (fwd m e))) := by
    rw [evalEpoch, evalPassStAux_eq]
    simp only [List.nil_append]
    rw [← h, List.map_map]
    rfl
  exact ⟨hmain, by rw [hmain, List.length_map]⟩

/-- Witness for claim C6: a two-batch dev pass over a three-example
dataset, with a one-logit-per-class toy forward function. -/
theorem eval_predictions_order_witness :
    ((EvalBatch.mk [0] [10] :: [EvalBatch.mk [1] [20, 30]]).map
        EvalBatch.exs).flatten = [10, 20, 30] ∧
    (evalEpoch (fun (_ : Unit) (e : Nat) => [(e : ℚ), 0])
        (fun _ _ => 0) (fun n => n) ()
        (EvalBatch.mk [0] [10] :: [EvalBatch.mk [1] [20, 30]])).1.1 =
      [10, 20, 30].map (fun e =>
        argmaxIdx ((fun (_ : Unit) (e : Nat) => [(e : ℚ), 0]) () e)) ∧
    (evalEpoch (fun (_ : Unit) (e : Nat) => [(e : ℚ), 0])
        (fun _ _ => 0) (fun n => n) ()
        (EvalBatch.mk [0] [10] :: [EvalBatch.mk [1] [20, 30]])).1.1.length =
      [10, 20, 30].length := by
  have h := eval_predictions_order
    (fun (_ : Unit) (e : Nat) => [(e : ℚ), 0]) (fun _ _ => 0)
    (fun n => n) () (EvalBatch.mk [0] [10] :: [EvalBatch.mk [1] [20, 30]])
    [10, 20, 30] (by decide)
  exact ⟨by decide, h.1, h.2⟩

/-- Claim C9: the EVAL pass mutates nothing — under `torch.no_grad()` it
performs no backward pass and no optimizer or scheduler step, and the
loop body never assigns to the model — so the model state comes back
unchanged, and running the EVAL pass a second time from the state the
first run returned produces identical predictions and identical dev
loss: evaluation is a deterministic function of (model state, dataset). -/
theorem eval_idempotent {M Ex L : Type} (fwd : M → Ex → List ℚ)
    (crit : List (List ℚ) → List Nat → ℚ) (id2label : Nat → L)
    (m : M) (batches : List (EvalBatch Ex)) :
    (evalEpoch fwd crit id2label m batches).2 = m ∧
    evalEpoch fwd crit id2label
        ((evalEpoch fwd crit id2label m batches).2) batches =
      evalEpoch fwd crit id2label m batches := by
  have hst : (evalEpoch fwd crit id2label m batches).2 = m := by
    rw [evalEpoch, evalPassStAux_eq]
  exact ⟨hst, by rw [hst]⟩

/-- Claim C8: the reported per-epoch normalized training loss (lines
183, 223) equals the sum of the per-batch scalar losses over the epoch,
divided by the number of training examples and multiplied by the
configured batch size; the dev loss (lines 214, 224) is normalized the
same way over the dev set's per-batch criterion values. -/
theorem epoch_loss_normalization {M Ex L : Type} (A : Nat) (hA : A ≠ 0)
    (hasSched : Bool) (losses : List ℚ) (nTrain bs : Nat)
    (fwd : M → Ex → List ℚ) (crit : List (List ℚ) → List Nat → ℚ)
    (id2label : Nat → L) (m : M) (batches : List (EvalBatch Ex))
    (nDev : Nat) :
    (trainEpoch A hasSched losses).map
        (fun s => normalizedLoss s.trainLoss nTrain bs) =
      .ok (normalizedLoss losses.sum nTrain bs) ∧
    normalizedLoss (evalEpoch fwd crit id2label m batches).1.2 nDev bs =
      normalizedLoss
        ((batches.map (fun b => crit (b.exs.map (fwd m)) b.labels)).sum)
        nDev bs := by
  constructor
  · rw [trainEpoch, trainEpochAux_ok A hA]
    simp [initTrainState, Except.map]
  · rw [evalEpoch, evalPassStAux_eq]
    simp

/-- Witness for claim C8 at `A = 1`, two train batches, a dataset of 2
training and 3 dev examples, batch size 3. -/
theorem epoch_loss_normalization_witness :
    (trainEpoch 1 true [1, 2]).map
        (fun s => normalizedLoss s.trainLoss 2 3) =
      .ok (normalizedLoss [(1 : ℚ), 2].sum 2 3) ∧
    normalizedLoss
        (evalEpoch (fun (_ : Unit) (e : Nat) => [(e : ℚ)])
          (fun logits _ => logits.flatten.sum) (fun n => n) ()
          (EvalBatch.mk [0] [10] :: [EvalBatch.mk [1] [20, 30]])).1.2 3 3 =
      normalizedLoss
        (((EvalBatch.mk [0] [10] :: [EvalBatch.mk [1] [20, 30]]).map
          (fun b => (b.exs.map ((fun (_ : Unit) (e : Nat) => [(e : ℚ)]) ())).flatten.sum)).sum)
        3 3 :=
  epoch_loss_normalization 1 (by norm_num) true [1, 2] 2 3
    (fun (_ : Unit) (e : Nat) => [(e : ℚ)])
    (fun logits _ => logits.flatten.sum) (fun n => n) ()
    (EvalBatch.mk [0] [10] :: [EvalBatch.mk [1] [20, 30]]) 3

/-- Bookkeeping state of the checkpoint block (lines 232-245). `onDisk`
lists the epochs whose per-epoch file `ckpt_epoch_{e}.pt` currently
exists; `best` is the epoch whose checkpoint was last copied to the
separate fixed path `best_model.pt` (line 235); `listDevF1` is
`list_dev_f1` (line 142), appended only at line 245, after the save
block. -/
structure CkptState where
  onDisk : List Nat
  best : Option Nat
  listDevF1 : List ℚ
deriving DecidableEq, Repr

/-- State before epoch 1: no files, no best model, empty history. -/
def initCkptState : CkptState := ⟨[], none, []⟩

/-- Python's `max` over a list of rationals. The `[]` case never arises
in the source: the call at line 234 is guarded by
`len(list_dev_f1) == 0`. -/
def pyMax : List ℚ → ℚ
  | [] => 0
  | x :: xs => xs.foldl max x

/-- Lines 232-245 for one epoch: save `ckpt_epoch_{epoch}.pt`; copy it
to `best_model.pt` when `len(list_dev_f1) == 0 or
dev_f1 > max(list_dev_f1)` (line 234, over the prior epochs' history);
delete the just-saved per-epoch file when `epoch % save_epoch != 0`
(lines 237-238); finally append `dev_f1` to `list_dev_f1` (line 245). -/
def ckptStepPure (save_epoch epoch : Nat) (dev_f1 : ℚ) (s : CkptState) :
    CkptState :=
  let afterSave := s.onDisk ++ [epoch]
  let best :=
    if s.listDevF1 = [] ∨ dev_f1 > pyMax s.listDevF1 then some epoch else s.best
  let onDisk := if epoch % save_epoch ≠ 0 then afterSave.erase epoch else afterSave
  ⟨onDisk, best, s.listDevF1 ++ [dev_f1]⟩

/-- The same step including Python's `ZeroDivisionError` on
`epoch % save_epoch` when `save_epoch = 0`. -/
def ckptStep (save_epoch epoch : Nat) (dev_f1 : ℚ) (s : CkptState) :
    Except String CkptState :=
  if save_epoch = 0 then
    .error "ZeroDivisionError: integer division or modulo by zero"
  else .ok (ckptStepPure save_epoch epoch dev_f1 s)

/-- The checkpoint block over the remaining epochs, given their dev F1
values, starting at epoch number `epoch`. -/
def runCkptAux (k : Nat) : List ℚ → Nat → CkptState → Except String CkptState
  | [], _, s => .ok s
  | f1 :: rest, epoch, s =>
    match ckptStep k epoch f1 s with
    | .error e => .error e
    | .ok s' => runCkptAux k rest (epoch + 1) s'

/-- The checkpoint block over a whole run: epochs `1..f1s.length` with
per-epoch dev F1 values `f1s`, retention cadence `save_epoch = k`. -/
def runCkpt (k : Nat) (f1s : List ℚ) : Except String CkptState :=
  runCkptAux k f1s 1 initCkptState

/-- Error-free unfolding of `runCkptAux`, used for proofs. -/
def runCkptPureAux (k : Nat) : List ℚ → Nat → CkptState → CkptState
  | [], _, s => s
  | f1 :: rest, epoch, s =>
    runCkptPureAux k rest (epoch + 1) (ckptStepPure k epoch f1 s)

/-- Error-free unfolding of `runCkpt`, used for proofs. -/
def runCkptPure (k : Nat) (f1s : List ℚ) : CkptState :=
  runCkptPureAux k f1s 1 initCkptState

/-- With a nonzero retention cadence the checkpoint block never raises,
and agrees with its error-free unfolding. -/
theorem runCkptAux_eq_pure (k : Nat) (hk : k ≠ 0) :
    ∀ (f1s : List ℚ) (epoch : Nat) (s : CkptState),
    runCkptAux k f1s epoch s = .ok (runCkptPureAux k f1s epoch s) := by
  intro f1s
  induction f1s with
  | nil => intro epoch s; rfl
  | cons f1 rest ih =>
    intro epoch s
    rw [runCkptAux, runCkptPureAux, ckptStep, if_neg hk]
    exact ih (epoch + 1) (ckptStepPure k epoch f1 s)

/-- With a nonzero retention cadence `runCkpt` agrees with its
error-free unfolding. -/
theorem runCkpt_eq_pure (k : Nat) (hk : k ≠ 0) (f1s : List ℚ) :
    runCkpt k f1s = .ok (runCkptPure k f1s) :=
  runCkptAux_eq_pure k hk f1s 1 initCkptState

/-- Splitting the last epoch off a checkpoint run. -/
theorem runCkptPureAux_concat (k : Nat) :
    ∀ (p : List ℚ) (x : ℚ) (epoch : Nat) (s : CkptState),
    runCkptPureAux k (p ++ [x]) epoch s =
      ckptStepPure k (epoch + p.length) x (runCkptPureAux k p epoch s) := by
  intro p
  induction p with
  | nil => intro x epoch s; rfl
  | cons f1 rest ih =>
    intro x epoch s
    rw [List.cons_append, runCkptPureAux, runCkptPureAux, ih]
    have : epoch + (f1 :: rest).length = epoch + 1 + rest.length := by
      simp; omega
    rw [this]

/-- The dev F1 history recorded by a checkpoint run is exactly the
input list, appended to the initial history. -/
theorem runCkptPureAux_listDevF1 (k : Nat) :
    ∀ (f1s : List ℚ) (epoch : Nat) (s : CkptState),
    (runCkptPureAux k f1s epoch s).listDevF1 = s.listDevF1 ++ f1s := by
  intro f1s
  induction f1s with
  | nil => intro epoch s; simp [runCkptPureAux]
  | cons f1 rest ih =>
    intro epoch s
    rw [runCkptPureAux, ih]
    simp [ckptStepPure]

/-- The initial value is below a `foldl max`. -/
theorem le_foldl_max (xs : List ℚ) : ∀ a : ℚ, a ≤ xs.foldl max a := by
  induction xs with
  | nil => intro a; simp
  | cons y ys ih =>
    intro a
    exact le_trans (le_max_left a y) (ih (max a y))

/-- Every member of the list is below a `foldl max` over it. -/
theorem mem_le_foldl_max (xs : List ℚ) :
    ∀ (a b : ℚ), b ∈ xs → b ≤ xs.foldl max a := by
  induction xs with
  | nil => intro a b h; cases h
  | cons y ys ih =>
    intro a b h
    rcases List.mem_cons.mp h with rfl | h'
    · exact le_trans (le_max_right a b) (le_foldl_max ys (max a b))
    · exact ih (max a y) b h'

/-- A `foldl max` is the initial value or a member of the list. -/
theorem foldl_max_cases (xs : List ℚ) :
    ∀ a : ℚ, xs.foldl max a = a ∨ xs.foldl max a ∈ xs := by
  induction xs with
  | nil => intro a; left; rfl
  | cons y ys ih =>
    intro a
    rw [List.foldl_cons]
    rcases ih (max a y) with h | h
    · rcases max_choice a y with hm | hm
      · left; rw [h, hm]
      · right; rw [h, hm]; exact List.mem_cons_self y ys
    · right; exact List.mem_cons_of_mem y h

/-- Every member of a list is bounded by its Python `max`. -/
theorem le_pyMax (l : List ℚ) (a : ℚ) (h : a ∈ l) : a ≤ pyMax l := by
  cases l with
  | nil => cases h
  | cons x xs =>
    rcases List.mem_cons.mp h with rfl | h'
    · exact le_foldl_max xs a
    · exact mem_le_foldl_max xs x a h'

/-- The Python `max` of a nonempty list is one of its members. -/
theorem pyMax_mem (l : List ℚ) (h : l ≠ []) : pyMax l ∈ l := by
  cases l with
  | nil => exact absurd rfl h
  | cons x xs =>
    show xs.foldl max x ∈ x :: xs
    rcases foldl_max_cases xs x with h' | h'
    · rw [h']; exact List.mem_cons_self x xs
    · exact List.mem_cons_of_mem x h'

/-- The element appended at the end of a list, read back by `getD`. -/
theorem getD_concat_self (l : List ℚ) (x : ℚ) :
    (l ++ [x]).getD l.length 0 = x := by
  rw [List.getD_eq_getElem _ _ (by simp)]
  simp

/-- `e` is the 1-based position of the first occurrence of the maximum
of `f1s`: every value is bounded by the one at `e`, and every strictly
earlier value is strictly below it. -/
def FirstArgmax (f1s : List ℚ) (e : Nat) : Prop :=
  1 ≤ e ∧ e ≤ f1s.length ∧
  (∀ j, j < f1s.length → f1s.getD j 0 ≤ f1s.getD (e - 1) 0) ∧
  (∀ j, j + 1 < e → f1s.getD j 0 < f1s.getD (e - 1) 0)

/-- After any nonempty run, the best-model pointer names the earliest
epoch attaining the maximum dev F1 of the run. -/
theorem runCkptPure_best (k : Nat) (f1s : List ℚ) (h : f1s ≠ []) :
    ∃ e, (runCkptPure k f1s).best = some e ∧ FirstArgmax f1s e := by
  induction f1s using List.reverseRecOn with
  | nil => exact absurd rfl h
  | append_singleton p x ih =>
    rw [runCkptPure, runCkptPureAux_concat]
    by_cases hp : p = []
    · subst hp
      refine ⟨1, by simp [runCkptPureAux, ckptStepPure, initCkptState],
        le_refl 1, by simp, ?_, ?_⟩
      · intro j hj
        simp only [List.nil_append, List.length_cons, List.length_nil] at hj
        have hj0 : j = 0 := by omega
        subst hj0
        simp
      · intro j hj
        omega
    · have hdev : (runCkptPureAux k p 1 initCkptState).listDevF1 = p := by
        rw [runCkptPureAux_listDevF1]
        simp [initCkptState]
      by_cases hx : pyMax p < x
      · refine ⟨1 + p.length, ?_, ?_, ?_, ?_, ?_⟩
        · simp only [ckptStepPure]
          rw [hdev]
          simp [hp, hx]
        · omega
        · simp
          omega
        · intro j hj
          have hlen : (p ++ [x]).length = p.length + 1 := by simp
          rw [hlen] at hj
          have he : 1 + p.length - 1 = p.length := by omega
          rw [he, getD_concat_self]
          rcases Nat.lt_or_ge j p.length with hjp | hjp
          · rw [List.getD_append p [x] 0 j hjp]
            have hmem : p.getD j 0 ∈ p := by
              rw [List.getD_eq_getElem _ _ hjp]
              exact List.getElem_mem hjp
            exact le_of_lt (lt_of_le_of_lt (le_pyMax p _ hmem) hx)
          · have hj' : j = p.length := by omega
            subst hj'
            rw [getD_concat_self]
        · intro j hj
          have hjp : j < p.length := by omega
          have he : 1 + p.length - 1 = p.length := by omega
          rw [he, getD_concat_self, List.getD_append p [x] 0 j hjp]
          have hmem : p.getD j 0 ∈ p := by
            rw [List.getD_eq_getElem _ _ hjp]
            exact List.getElem_mem hjp
          exact lt_of_le_of_lt (le_pyMax p _ hmem) hx
      · obtain ⟨e, hbest, h1, h2, h3, h4⟩ := ih hp
        rw [runCkptPure] at hbest
        have he1 : e - 1 < p.length := by omega
        have hgetd : (p ++ [x]).getD (e - 1) 0 = p.getD (e - 1) 0 :=
          List.getD_append p [x] 0 (e - 1) he1
        refine ⟨e, ?_, h1, ?_, ?_, ?_⟩
        · simp only [ckptStepPure]
          rw [hdev]
          simp [hp, hx, hbest]
        · simp
          omega
        · intro j hj
          have hlen : (p ++ [x]).length = p.length + 1 := by simp
          rw [hlen] at hj
          rw [hgetd]
          rcases Nat.lt_or_ge j p.length with hjp | hjp
          · rw [List.getD_append p [x] 0 j hjp]
            exact h3 j hjp
          · have hj' : j = p.length := by omega
            subst hj'
            rw [getD_concat_self]
            have hxle : x ≤ pyMax p := le_of_not_lt hx
            obtain ⟨i, hi, hpi⟩ := List.mem_iff_getElem.mp (pyMax_mem p hp)
            have : pyMax p ≤ p.getD (e - 1) 0 := by
              rw [← hpi, ← List.getD_eq_getElem p 0 hi]
              exact h3 i hi
            exact le_trans hxle this
        · intro j hj
          have hjp : j < p.length := by omega
          rw [hgetd, List.getD_append p [x] 0 j hjp]
          exact h4 j hj

/-- After a run with nonzero cadence `k`, the per-epoch files on disk
are exactly those of the epochs that are multiples of `k`. -/
theorem runCkptPure_onDisk (k : Nat) (_hk : k ≠ 0) (f1s : List ℚ) :
    (runCkptPure k f1s).onDisk =
      (List.range' 1 f1s.length).filter (fun e => e % k == 0) := by
  induction f1s using List.reverseRecOn with
  | nil => rfl
  | append_singleton p x ih =>
    rw [runCkptPure, runCkptPureAux_concat]
    have hrange : List.range' 1 (p.length + 1) =
        List.range' 1 p.length ++ [p.length + 1] := by
      rw [Nat.add_comm p.length 1, ← List.range'_append 1 p.length 1 1]
      simp [Nat.add_comm]
    have hlen : (p ++ [x]).length = p.length + 1 := by simp
    rw [hlen, hrange, List.filter_append]
    rw [runCkptPure] at ih
    have hnotmem : (1 + p.length) ∉ (runCkptPureAux k p 1 initCkptState).onDisk := by
      rw [ih]
      intro hmem
      have := List.mem_range'_1.mp (List.mem_of_mem_filter hmem)
      omega
    by_cases hE : (1 + p.length) % k = 0
    · have hstep : (ckptStepPure k (1 + p.length) x
          (runCkptPureAux k p 1 initCkptState)).onDisk =
          (runCkptPureAux k p 1 initCkptState).onDisk ++ [1 + p.length] := by
        simp [ckptStepPure, hE]
      rw [hstep, ih]
      have : p.length + 1 = 1 + p.length := by omega
      rw [this]
      simp [List.filter_cons, hE]
    · have hstep : (ckptStepPure k (1 + p.length) x
          (runCkptPureAux k p 1 initCkptState)).onDisk =
          ((runCkptPureAux k p 1 initCkptState).onDisk ++ [1 + p.length]).erase
            (1 + p.length) := by
        simp [ckptStepPure, hE]
      rw [hstep, List.erase_append_right _ hnotmem, List.erase_cons_head,
        List.append_nil, ih]
      have : p.length + 1 = 1 + p.length := by omega
      rw [this]
      simp [List.filter_cons, hE]

/-- The best-model pointer and the dev F1 history do not depend on the
retention cadence: pruning only touches the rotating per-epoch files. -/
theorem runCkptPureAux_best_indep (k k' : Nat) :
    ∀ (f1s : List ℚ) (epoch : Nat) (s s' : CkptState),
    s.best = s'.best → s.listDevF1 = s'.listDevF1 →
    (runCkptPureAux k f1s epoch s).best = (runCkptPureAux k' f1s epoch s').best := by
  intro f1s
  induction f1s with
  | nil =>
    intro epoch s s' hb hd
    simpa [runCkptPureAux] using hb
  | cons f1 rest ih =>
    intro epoch s s' hb hd
    rw [runCkptPureAux, runCkptPureAux]
    apply ih
    · simp [ckptStepPure, hd, hb]
    · simp [ckptStepPure, hd]

/-- Claim C3: after every epoch's checkpoint step, the best-model file
is the checkpoint of the epoch with the highest dev F1 among all epochs
processed so far; on ties it remains the earliest such epoch's
checkpoint, because line 234 compares with strict greater-than against
the maximum of the prior epochs' dev F1 values (and the first epoch
always becomes best). -/
theorem best_model_tracks_max_dev_f1 (k : Nat) (hk : k ≠ 0)
    (f1s : List ℚ) (hne : f1s ≠ []) :
    ∃ s e, runCkpt k f1s = .ok s ∧ s.best = some e ∧ FirstArgmax f1s e := by
  obtain ⟨e, hbest, hfa⟩ := runCkptPure_best k f1s hne
  exact ⟨runCkptPure k f1s, e, runCkpt_eq_pure k hk f1s, hbest, hfa⟩

/-- Witness for claim C3: two epochs with identical dev F1 `0.8`; the
best pointer exists and is the first argmax (epoch 1). -/
theorem best_model_tracks_max_dev_f1_witness :
    ∃ s e, runCkpt 1 [(4 : ℚ)/5, 4/5] = .ok s ∧ s.best = some e ∧
      FirstArgmax [(4 : ℚ)/5, 4/5] e :=
  best_model_tracks_max_dev_f1 1 (by norm_num) [(4 : ℚ)/5, 4/5] (by simp)

/-- Claim C4: after a run with retention cadence `save_epoch = k`,
exactly the per-epoch checkpoint files of the epochs that are multiples
of `k` remain on disk (every epoch's file is saved, then deleted
immediately when `epoch mod k ≠ 0`), while the best-model pointer is
unaffected by the cadence, since `best_model.pt` lives at a separate
fixed path. -/
theorem checkpoint_retention_policy (k : Nat) (hk : k ≠ 0) (f1s : List ℚ) :
    ∃ s, runCkpt k f1s = .ok s ∧
      s.onDisk = (List.range' 1 f1s.length).filter (fun e => e % k == 0) ∧
      (∀ k', k' ≠ 0 → ∃ s', runCkpt k' f1s = .ok s' ∧ s'.best = s.best) := by
  refine ⟨runCkptPure k f1s, runCkpt_eq_pure k hk f1s,
    runCkptPure_onDisk k hk f1s, ?_⟩
  intro k' hk'
  exact ⟨runCkptPure k' f1s, runCkpt_eq_pure k' hk' f1s,
    runCkptPureAux_best_indep k' k f1s 1 initCkptState initCkptState rfl rfl⟩

/-- Witness for claim C4: the spec scenario `save_epoch = 2`, dev F1
`0.70` then `0.65`: only epoch 2's rotating file remains, and the best
pointer agrees with any other cadence's run. -/
theorem checkpoint_retention_policy_witness :
    ∃ s, runCkpt 2 [(7 : ℚ)/10, 13/20] = .ok s ∧
      s.onDisk = (List.range' 1 [(7 : ℚ)/10, 13/20].length).filter
        (fun e => e % 2 == 0) ∧
      (∀ k', k' ≠ 0 → ∃ s', runCkpt k' [(7 : ℚ)/10, 13/20] = .ok s' ∧
        s'.best = s.best) :=
  checkpoint_retention_policy 2 (by norm_num) [(7 : ℚ)/10, 13/20]

/-- Modelled from the spec (§4.2): accumulation factor
`A = ceil(target_batch_size / effective_batch_size)` with target batch
size 64, written as `(64 + bs - 1) / bs`. -/
def specAccumFactor (batch_size : Nat) : Nat :=
  (64 + batch_size - 1) / batch_size

/-- Claim C5 counterexample: at batch size 48 the code computes
`grad_acc_steps = 64 // 48 = 1`, while the spec's formula gives
`ceil(64 / 48) = 2`. -/
theorem accum_factor_not_ceil :
    grad_acc_steps 48 = 1 ∧ specAccumFactor 48 = 2 ∧
    grad_acc_steps 48 ≠ specAccumFactor 48 := by decide

/-- Claim C5 (amended): the accumulation factor computed at line 81 is
`floor(64 / batch_size)`, which agrees with the spec's
`ceil(64 / batch_size)` exactly when the batch size divides 64. -/
theorem accum_factor_floor (bs : Nat) (hbs : 0 < bs) :
    grad_acc_steps bs = 64 / bs ∧
    (grad_acc_steps bs = specAccumFactor bs ↔ bs ∣ 64) := by
  refine ⟨rfl, ?_⟩
  have hbs0 : bs ≠ 0 := by omega
  have hr : 64 % bs < bs := Nat.mod_lt _ hbs
  have hq := Nat.div_add_mod 64 bs
  have hspec : specAccumFactor bs = (64 % bs + (bs - 1)) / bs + 64 / bs := by
    rw [specAccumFactor]
    have h1 : 64 + bs - 1 = (64 % bs + (bs - 1)) + bs * (64 / bs) := by omega
    rw [h1, Nat.add_mul_div_left _ _ hbs]
  constructor
  · intro heq
    by_contra hdvd
    have hrne : 64 % bs ≠ 0 := fun h0 => hdvd (Nat.dvd_of_mod_eq_zero h0)
    have h2 : (64 % bs + (bs - 1)) / bs = 1 := by
      have h3 : 64 % bs + (bs - 1) = (64 % bs - 1) + bs := by omega
      rw [h3, Nat.add_div_right _ hbs, Nat.div_eq_of_lt (by omega)]
    rw [grad_acc_steps] at heq
    omega
  · intro hdvd
    obtain ⟨c, hc⟩ := hdvd
    have hr0 : 64 % bs = 0 := by
      rw [hc]
      exact Nat.mul_mod_right bs c
    have h2 : (64 % bs + (bs - 1)) / bs = 0 := by
      rw [hr0, Nat.zero_add]
      exact Nat.div_eq_of_lt (by omega)
    rw [grad_acc_steps]
    omega

/-- Witness for claim C5 (amended) at batch size 48. -/
theorem accum_factor_floor_witness :
    grad_acc_steps 48 = 64 / 48 ∧
    (grad_acc_steps 48 = specAccumFactor 48 ↔ (48 : Nat) ∣ 64) :=
  accum_factor_floor 48 (by norm_num)

/-- Line 58: the input-method name table; index 0 is a placeholder. -/
def input_method_name : List String :=
  ["", "standard", "positional_embedding", "entity_markers"]

/-- Line 59: the output-method name table; index 0 is a placeholder. -/
def output_method_name : List String :=
  ["", "cls_token", "mention_pooling", "entity_start"]

/-- Python's index shift for list subscription: a negative index is
shifted by the list length. -/
def pyShift (l : List String) (m : Int) : Int :=
  if m < 0 then m + l.length else m

/-- Python list subscription `l[m]` for an int index: after the shift,
an index outside `[0, len(l))` raises `IndexError`. -/
def pyGetItem (l : List String) (m : Int) : Except String String :=
  if h : 0 ≤ pyShift l m ∧ (pyShift l m).toNat < l.length then
    .ok (l.get ⟨(pyShift l m).toNat, h.2⟩)
  else .error "IndexError: list index out of range"

/-- Lines 58-63 of `train()`: the first statements that consume the two
method selectors look the method names up by integer index (lines
62-63); no validation precedes them — `parse_args` (lines 30-31)
declares the selectors as plain ints with no `choices` restriction. -/
def trainPrologue (input_method output_method : Int) :
    Except String (String × String) :=
  match pyGetItem input_method_name input_method with
  | .error e => .error e
  | .ok n1 =>
    match pyGetItem output_method_name output_method with
    | .error e => .error e
    | .ok n2 => .ok (n1, n2)

/-- Claim C7 counterexample: selector 0 is not one of the three declared
members (codes 1, 2, 3 for `standard`, `positional_embedding`,
`entity_markers`), yet the configuration is not rejected: the lookups
succeed and `train()` proceeds with the placeholder name. -/
theorem method_selector_zero_not_rejected :
    ((0 : Int) = 1 ∨ (0 : Int) = 2 ∨ (0 : Int) = 3 → False) ∧
    trainPrologue 0 3 = .ok ("", "entity_start") :=
  ⟨by decide, by rfl⟩

/-- Claim C7 (amended): the method selectors are not validated. A
selector above 3 or below -4 makes the lookup raise `IndexError` — a
runtime failure during `train()` setup (before any batch is processed),
not a configuration-validation rejection — while the non-member
selectors in `[-4, 0]` are silently accepted and select an unintended
name (the placeholder for 0, a wrapped-around name for negatives). -/
theorem method_selector_amended (m : Int) (h : 3 < m ∨ m < -4) :
    trainPrologue m 3 = .error "IndexError: list index out of range" ∧
    trainPrologue 0 3 = .ok ("", "entity_start") ∧
    trainPrologue (-1) 3 = .ok ("entity_markers", "entity_start") := by
  refine ⟨?_, by rfl, by rfl⟩
  have hfalse : ¬(0 ≤ pyShift input_method_name m ∧
      (pyShift input_method_name m).toNat < input_method_name.length) := by
    have hs : pyShift input_method_name m = if m < 0 then m + 4 else m := rfl
    have hlen : input_method_name.length = 4 := rfl
    rw [hs, hlen]
    rcases h with h | h
    · rw [if_neg (by omega)]
      intro hcon
      omega
    · rw [if_pos (by omega)]
      intro hcon
      omega
  have hfail : pyGetItem input_method_name m =
      .error "IndexError: list index out of range" := by
    rw [pyGetItem, dif_neg hfalse]
  unfold trainPrologue
  rw [hfail]

/-- Witness for claim C7 (amended) at selector 5. -/
theorem method_selector_amended_witness :
    trainPrologue 5 3 = .error "IndexError: list index out of range" ∧
    trainPrologue 0 3 = .ok ("", "entity_start") ∧
    trainPrologue (-1) 3 = .ok ("entity_markers", "entity_start") :=
  method_selector_amended 5 (by decide)
